import Mathlib

/-!
Verification of the RedisTikvPoc transaction core.

A shallow embedding of `src/tikv.rs` and `src/tikv/utils.rs`: the session
registry (`TIKV_TRANSACTIONS`), the transactional connection pool
(`TIKV_TNX_CONN_POOL`), the configured placement-driver addresses
(`PD_ADDRS`), the global non-transactional client (`GLOBAL_CLIENT`), and
the operation façade (`do_async_get`, `do_async_put`, `do_async_begin`,
`do_async_commit`, `do_async_rollback`, `do_async_batch_get`,
`do_async_scan_range`, `do_async_close`, `do_async_connect`).

Global mutable state becomes an explicit `State` record threaded through
every operation; a Rust function returning `Result<T, Error>` while
mutating globals becomes `State → Except Err T × State` (an error return
keeps the state mutated so far, matching `?`-propagation over globals).
Keys, values and addresses are byte lists.  The external `tikv_client`
library (an opaque remote service in the spec) is modelled by a committed
key/value store inside `State` and a `Txn` record carrying a snapshot plus
a write buffer; a remote commit failure is injected through an `Env`
oracle so that error propagation paths are provable.
-/

namespace RedisTikvPoc

/-- Byte strings: keys and values are raw byte sequences. -/
abbrev Bytes := List Nat

/-- Errors returned by the core, mirroring `tikv_client::Error::StringError`
uses in the source; `panicked` is not a returned error but marks a Rust
panic (e.g. `Option::unwrap` on `None`), which aborts rather than returns. -/
inductive Err where
  | notConnected        -- "TiKV Not connected"
  | txnAlreadyStarted   -- "Transaction already started"
  | txnNotStarted       -- "Transaction not started"
  | commitErr (n : Nat) -- a remote failure surfaced from `Transaction::commit`
  | panicked            -- models a Rust panic, never a normal error return
deriving DecidableEq

/-- Oracle for the one remote fallibility the claims depend on: whether a
`Transaction::commit` issued during the call fails (`some n`) or succeeds
(`none`). -/
structure Env where
  commitFail : Option Nat
deriving DecidableEq

/-- The all-remote-calls-succeed environment. -/
def env0 : Env := ⟨none⟩

instance {ε α : Type} [DecidableEq ε] [DecidableEq α] :
    DecidableEq (Except ε α) := fun x y =>
  match x, y with
  | .error a, .error b =>
    if h : a = b then isTrue (by rw [h])
    else isFalse (by intro hc; cases hc; exact h rfl)
  | .error _, .ok _ => isFalse (by intro hc; cases hc)
  | .ok _, .error _ => isFalse (by intro hc; cases hc)
  | .ok a, .ok b =>
    if h : a = b then isTrue (by rw [h])
    else isFalse (by intro hc; cases hc; exact h rfl)

/-- Embeds `TiKVValue` from the source: `Null` (no value) or a string payload.
`From<Vec<u8>>` goes through `from_utf8_lossy`, modelled as the identity on
the underlying bytes. -/
inductive TiKVValue where
  | null
  | str (s : Bytes)
deriving DecidableEq

/-- Association-list erase: drop every pair with the given key (the
`HashMap::remove` effect on an entry list). -/
def alistErase {α β : Type} [BEq α] (k : α) (l : List (α × β)) : List (α × β) :=
  l.filter (fun p => p.1 != k)

/-- Association-list insert-or-overwrite (the `HashMap::insert` effect). -/
def alistInsert {α β : Type} [BEq α] (k : α) (v : β) (l : List (α × β)) : List (α × β) :=
  (k, v) :: alistErase k l

/-- A TiKV transaction handle: the snapshot of the committed store taken at
`begin`, plus a write buffer (newest first); `some v` buffers a put, `none`
buffers a delete.  Models `tikv_client::Transaction`'s read-your-own-writes
view over a snapshot. -/
structure Txn where
  snapshot : List (Bytes × Bytes)
  buffer : List (Bytes × Option Bytes)
deriving DecidableEq

/-- The process-global state: `PD_ADDRS`, `TIKV_TRANSACTIONS` (session
registry), `TIKV_TNX_CONN_POOL` (connection freelist, as opaque ids),
a fresh-id source counting established connections, `GLOBAL_CLIENT`
(the raw client), and the committed store of the remote service. -/
structure State where
  pdAddrs : Option (List String)
  txns : List (Nat × Txn)
  connPool : List Nat
  nextConn : Nat
  globalClient : Option Unit
  store : List (Bytes × Bytes)
deriving DecidableEq

/-- Process start: nothing configured, nothing pooled, empty store. -/
def initState : State := ⟨none, [], [], 0, none, []⟩

/-! ## Key codec

Modelled from the spec: `crate::encoding` (`encode_key`, `encode_keys`,
`decode_key`) is not among the sources; §3 specifies an encoded key as
data-kind tag byte + separator + logical-key bytes, injective per kind,
with `decode` exactly inverting `encode` for the kind being read. -/

/-- The data kinds distinguished by the codec. -/
inductive DataType where
  | Raw
  | Hash
deriving DecidableEq

/-- Modelled from the spec: the data-kind tag byte (§3); the concrete byte
values are unknown, only distinctness per kind matters. -/
def kindTag : DataType → Nat
  | .Raw => 82
  | .Hash => 72

/-- Modelled from the spec: the separator byte between tag and key (§3). -/
def SEP : Nat := 36

/-- Modelled from the spec: `encode_key` = tag byte, separator, key bytes. -/
def encode_key (dt : DataType) (k : Bytes) : Bytes :=
  kindTag dt :: SEP :: k

/-- Modelled from the spec: `encode_keys` encodes each key of the list. -/
def encode_keys (dt : DataType) (ks : List Bytes) : List Bytes :=
  ks.map (encode_key dt)

/-- Modelled from the spec: `decode_key` strips the tag and separator. -/
def decode_key (b : Bytes) : Bytes := b.drop 2

/-! ## Transaction view of the store (the `tikv_client` contract) -/

/-- Read through a transaction: the newest buffered write for the key wins,
otherwise the snapshot answers (read-your-own-writes over the snapshot). -/
def txnGet (t : Txn) (k : Bytes) : Option Bytes :=
  match t.buffer.lookup k with
  | some ov => ov
  | none => t.snapshot.lookup k

/-- Buffer a put inside the transaction. -/
def txnPut (t : Txn) (k v : Bytes) : Txn :=
  { t with buffer := (k, some v) :: t.buffer }

/-- Apply one buffered mutation to an entry list. -/
def applyMut (m : Bytes × Option Bytes) (l : List (Bytes × Bytes)) : List (Bytes × Bytes) :=
  match m.2 with
  | some v => alistInsert m.1 v l
  | none => alistErase m.1 l

/-- The transaction's full view as an entry list: the buffer applied over
the snapshot, newest mutation last (outermost). -/
def txnView (t : Txn) : List (Bytes × Bytes) :=
  t.buffer.foldr applyMut t.snapshot

/-- Embeds `begin_with_options` on a pooled connection: a fresh transaction whose
snapshot is the committed store at that moment, empty buffer. -/
def txnBegin (s : State) : Txn := ⟨s.store, []⟩

/-- Embeds `Transaction::commit`: on success the buffered mutations are applied to
the committed store; the injected `Env` oracle decides failure. -/
def txnCommit (env : Env) (t : Txn) (s : State) : Except Err Unit × State :=
  match env.commitFail with
  | some n => (.error (.commitErr n), s)
  | none => (.ok (), { s with store := t.buffer.foldr applyMut s.store })

/-! ## Session registry and connection pool (`tikv.rs` lines 34–58) -/

/-- Embeds `has_txn`: does the registry hold a parked handle for this session id? -/
def has_txn (cid : Nat) (s : State) : Bool :=
  (s.txns.lookup cid).isSome

/-- Embeds `put_txn`: `HashMap::insert` — parks a handle, silently overwriting any
previously parked handle for the same session id. -/
def put_txn (cid : Nat) (t : Txn) (s : State) : State :=
  { s with txns := alistInsert cid t s.txns }

/-- Embeds `get_txn`: `HashMap::remove(..).unwrap()` — returns the parked handle
(or `none`, on which the Rust code would panic) and removes the entry. -/
def get_txn (cid : Nat) (s : State) : Option Txn × State :=
  (s.txns.lookup cid, { s with txns := alistErase cid s.txns })

/-- Embeds `get_pd_addrs`: the configured addresses, or `NotConnected`. -/
def get_pd_addrs (s : State) : Except Err (List String) :=
  match s.pdAddrs with
  | none => .error .notConnected
  | some a => .ok a

/-- Embeds `get_client`: the global non-transactional client, or `NotConnected`. -/
def get_client (s : State) : Except Err Unit :=
  match s.globalClient with
  | none => .error .notConnected
  | some c => .ok c

/-- Embeds `get_txn_client`: pop an idle pooled connection first; only on an empty
pool consult the configured addresses and establish a fresh connection
(`TransactionClient::new`, modelled as minting a fresh id). -/
def get_txn_client (s : State) : Except Err Nat × State :=
  match s.connPool with
  | c :: rest => (.ok c, { s with connPool := rest })
  | [] =>
    match s.pdAddrs with
    | none => (.error .notConnected, s)
    | some _ => (.ok s.nextConn, { s with nextConn := s.nextConn + 1 })

/-- Embeds `put_txn_client`: push a connection back onto the freelist. -/
def put_txn_client (c : Nat) (s : State) : State :=
  { s with connPool := s.connPool ++ [c] }

/-- Embeds `finish_txn`: park the handle back when the call was inside a session
transaction, otherwise commit it immediately (auto-commit). -/
def finish_txn (env : Env) (cid : Nat) (t : Txn) (in_txn : Bool) (s : State) :
    Except Err Nat × State :=
  if in_txn then (.ok 1, put_txn cid t s)
  else
    match txnCommit env t s with
    | (.error e, s1) => (.error e, s1)
    | (.ok _, s1) => (.ok 1, s1)

/-- Embeds `get_transaction`: take the parked handle when one exists, otherwise
borrow a pooled connection, begin a fresh transaction on it and return the
connection to the pool. -/
def get_transaction (cid : Nat) (s : State) : Except Err Txn × State :=
  if has_txn cid s then
    match get_txn cid s with
    | (some t, s1) => (.ok t, s1)
    | (none, s1) => (.error .panicked, s1)
  else
    match get_txn_client s with
    | (.error e, s1) => (.error e, s1)
    | (.ok conn, s1) => (.ok (txnBegin s1), put_txn_client conn s1)

/-! ## Operation façade -/

/-- Embeds `do_async_connect`: establish the raw client and record the addresses
(both `RawClient::new` and address storage, remote call modelled as
succeeding). -/
def do_async_connect (addrs : List String) (s : State) : Except Err Unit × State :=
  (.ok (), { s with pdAddrs := some addrs, globalClient := some () })

/-- Embeds `do_async_close`: requires the global client, then drops it.  Nothing
else is touched — the pool, addresses and registry stay as they are. -/
def do_async_close (s : State) : Except Err String × State :=
  match get_client s with
  | .error e => (.error e, s)
  | .ok _ => (.ok "Closed", { s with globalClient := none })

/-- Embeds `do_async_begin`: addresses first, then the already-started check, then
begin a fresh transaction and park it. -/
def do_async_begin (cid : Nat) (s : State) : Except Err Unit × State :=
  match get_pd_addrs s with
  | .error e => (.error e, s)
  | .ok _ =>
    if has_txn cid s then (.error .txnAlreadyStarted, s)
    else
      match get_txn_client s with
      | (.error e, s1) => (.error e, s1)
      | (.ok conn, s1) =>
        let t := txnBegin s1
        (.ok (), put_txn cid t (put_txn_client conn s1))

/-- Embeds `do_async_commit`: addresses first, then the not-started check, then
take the parked handle and commit it (never re-parking). -/
def do_async_commit (env : Env) (cid : Nat) (s : State) : Except Err Unit × State :=
  match get_pd_addrs s with
  | .error e => (.error e, s)
  | .ok _ =>
    if has_txn cid s then
      match get_txn cid s with
      | (some t, s1) =>
        match txnCommit env t s1 with
        | (.error e, s2) => (.error e, s2)
        | (.ok _, s2) => (.ok (), s2)
      | (none, s1) => (.error .panicked, s1)
    else (.error .txnNotStarted, s)

/-- Embeds `do_async_rollback`: addresses first, then the not-started check, then
take the parked handle and roll it back (discarding its buffer). -/
def do_async_rollback (cid : Nat) (s : State) : Except Err Unit × State :=
  match get_pd_addrs s with
  | .error e => (.error e, s)
  | .ok _ =>
    if has_txn cid s then
      match get_txn cid s with
      | (some _, s1) => (.ok (), s1)
      | (none, s1) => (.error .panicked, s1)
    else (.error .txnNotStarted, s)

/-- Embeds `do_async_get`: encode the key, read through the per-call transaction,
then park back or auto-commit; `None` flows out as the Null marker. -/
def do_async_get (env : Env) (cid : Nat) (key : Bytes) (s : State) :
    Except Err (Option Bytes) × State :=
  let in_txn := has_txn cid s
  match get_transaction cid s with
  | (.error e, s1) => (.error e, s1)
  | (.ok t, s1) =>
    let v := txnGet t (encode_key .Raw key)
    match finish_txn env cid t in_txn s1 with
    | (.error e, s2) => (.error e, s2)
    | (.ok _, s2) => (.ok v, s2)

/-- Embeds `do_async_get_raw`: like `do_async_get` but the source ends with
`Ok(value.unwrap())` — on an absent value the Rust code panics, modelled
as the `panicked` marker. -/
def do_async_get_raw (env : Env) (cid : Nat) (key : Bytes) (s : State) :
    Except Err Bytes × State :=
  let in_txn := has_txn cid s
  match get_transaction cid s with
  | (.error e, s1) => (.error e, s1)
  | (.ok t, s1) =>
    let v := txnGet t (encode_key .Raw key)
    match finish_txn env cid t in_txn s1 with
    | (.error e, s2) => (.error e, s2)
    | (.ok _, s2) =>
      match v with
      | some b => (.ok b, s2)
      | none => (.error .panicked, s2)

/-- Embeds `do_async_put`: buffer the write in the per-call transaction, then park
back or auto-commit. -/
def do_async_put (env : Env) (cid : Nat) (key val : Bytes) (s : State) :
    Except Err Unit × State :=
  let in_txn := has_txn cid s
  match get_transaction cid s with
  | (.error e, s1) => (.error e, s1)
  | (.ok t, s1) =>
    let t1 := txnPut t (encode_key .Raw key) val
    match finish_txn env cid t1 in_txn s1 with
    | (.error e, s2) => (.error e, s2)
    | (.ok _, s2) => (.ok (), s2)

/-! ## Batch get -/

/-- Modelled from the spec: `Transaction::batch_get` of the opaque client
library (§6) returns a pair for exactly each requested key holding a value.
The order is unspecified by the library, so it is modelled as the store's
own entry order — which differs from the request order — making any
order-preservation downstream attributable to the façade, never to the
remote call. -/
def txnBatchGet (t : Txn) (keys : List Bytes) : List (Bytes × Bytes) :=
  (txnView t).filter (fun p => keys.contains p.1)

/-- Embeds `wrap_batch_get` (tikv.rs): one batched remote call, collected as-is. -/
def wrap_batch_get (t : Txn) (keys : List Bytes) : List (Bytes × Bytes) :=
  txnBatchGet t keys

namespace utils

/-- Embeds `wrap_batch_get` (utils.rs): one `Transaction::get` per key in input
order, pushing `(key, value)` for each key that has a value. -/
def wrap_batch_get (t : Txn) (keys : List Bytes) : List (Bytes × Bytes) :=
  keys.filterMap (fun k => (txnGet t k).map (fun v => (k, v)))

end utils

/-- Embeds `HashMap::from_iter` then `get`: later pairs overwrite earlier ones, so
lookup finds the last occurrence. -/
def hmGet (pairs : List (Bytes × Bytes)) (k : Bytes) : Option Bytes :=
  pairs.reverse.lookup k

/-- Embeds `do_async_batch_get`: encode the keys, issue the batched call, collect
the result into a map keyed by the keys the call returned (the encoded
keys), then walk the ORIGINAL key list in order — looking each original key
up UNENCODED (`Into::<Key>::into(k)`, source line 247), `Null` on a miss. -/
def do_async_batch_get (env : Env) (cid : Nat) (keys : List Bytes) (s : State) :
    Except Err (List TiKVValue) × State :=
  let in_txn := has_txn cid s
  match get_transaction cid s with
  | (.error e, s1) => (.error e, s1)
  | (.ok t, s1) =>
    let ekeys := encode_keys .Raw keys
    let result := wrap_batch_get t ekeys
    let values := keys.map (fun k =>
      match hmGet result k with
      | some v => TiKVValue.str v
      | none => TiKVValue.null)
    match finish_txn env cid t in_txn s1 with
    | (.error e, s2) => (.error e, s2)
    | (.ok _, s2) => (.ok values, s2)

/-! ## Scan -/

/-- Strict lexicographic order on byte strings. -/
def ltBytes : Bytes → Bytes → Bool
  | _, [] => false
  | [], _ :: _ => true
  | a :: as_, b :: bs =>
    if a < b then true
    else if b < a then false
    else ltBytes as_ bs

/-- Lexicographic order on byte strings. -/
def leBytes (x y : Bytes) : Bool := x == y || ltBytes x y

/-- Insert a pair into a key-ascending list. -/
def insKV (p : Bytes × Bytes) : List (Bytes × Bytes) → List (Bytes × Bytes)
  | [] => [p]
  | q :: rest => if ltBytes p.1 q.1 then p :: q :: rest else q :: insKV p rest

/-- Sort entries by ascending key (insertion sort). -/
def sortKV : List (Bytes × Bytes) → List (Bytes × Bytes)
  | [] => []
  | p :: rest => insKV p (sortKV rest)

/-- Modelled from the spec: `Transaction::scan` of the opaque client library
(§6) over the half-open byte range `[lo, hi)` (Rust's `lo..hi`), returning
at most `limit` entries in ascending key order. -/
def txnScan (t : Txn) (lo hi : Bytes) (limit : Nat) : List (Bytes × Bytes) :=
  (sortKV ((txnView t).filter (fun p => leBytes lo p.1 && ltBytes p.1 hi))).take limit

/-- Embeds `do_async_scan_range`: encode both bounds, scan the half-open encoded
range (the `..` range operator is end-exclusive), decode each returned key;
the `u64` limit is truncated `as u32`. -/
def do_async_scan_range (env : Env) (cid : Nat) (startKey endKey : Bytes) (limit : Nat)
    (s : State) : Except Err (List (Bytes × Bytes)) × State :=
  let in_txn := has_txn cid s
  match get_transaction cid s with
  | (.error e, s1) => (.error e, s1)
  | (.ok t, s1) =>
    let result := txnScan t (encode_key .Raw startKey) (encode_key .Raw endKey)
      (limit % 2 ^ 32)
    let values := result.map (fun p => (decode_key p.1, p.2))
    match finish_txn env cid t in_txn s1 with
    | (.error e, s2) => (.error e, s2)
    | (.ok _, s2) => (.ok values, s2)

/-! ## Reachable states -/

/-- States reachable from process start through the embedded entry points
(any session ids, keys, values, limits and remote-commit outcomes). -/
inductive Reachable : State → Prop where
  | init : Reachable initState
  | connect (a : List String) (s : State) :
      Reachable s → Reachable (do_async_connect a s).2
  | close (s : State) : Reachable s → Reachable (do_async_close s).2
  | beginTx (cid : Nat) (s : State) :
      Reachable s → Reachable (do_async_begin cid s).2
  | commit (env : Env) (cid : Nat) (s : State) :
      Reachable s → Reachable (do_async_commit env cid s).2
  | rollback (cid : Nat) (s : State) :
      Reachable s → Reachable (do_async_rollback cid s).2
  | get (env : Env) (cid : Nat) (k : Bytes) (s : State) :
      Reachable s → Reachable (do_async_get env cid k s).2
  | getRaw (env : Env) (cid : Nat) (k : Bytes) (s : State) :
      Reachable s → Reachable (do_async_get_raw env cid k s).2
  | put (env : Env) (cid : Nat) (k v : Bytes) (s : State) :
      Reachable s → Reachable (do_async_put env cid k v s).2
  | batchGet (env : Env) (cid : Nat) (ks : List Bytes) (s : State) :
      Reachable s → Reachable (do_async_batch_get env cid ks s).2
  | scanRange (env : Env) (cid : Nat) (a b : Bytes) (lim : Nat) (s : State) :
      Reachable s → Reachable (do_async_scan_range env cid a b lim s).2

/-! ## Concrete states for witnesses and counterexamples -/

/-- A freshly connected process: `connect(["pd"])` from the initial state. -/
def sConn : State := (do_async_connect ["pd"] initState).2

/-- After `put("a","1")` then `put("b","2")` in auto-commit mode. -/
def sAB : State :=
  (do_async_put env0 0 [98] [50] (do_async_put env0 0 [97] [49] sConn).2).2

/-- After `put("k1","v1")`, `put("k2","v2")`, `put("k3","v3")` in
auto-commit mode. -/
def sK123 : State :=
  (do_async_put env0 0 [107, 51] [118, 51]
    (do_async_put env0 0 [107, 50] [118, 50]
      (do_async_put env0 0 [107, 49] [118, 49] sConn).2).2).2

/-- After an explicit `begin` on session 0: a handle is parked and the
connection that produced it is back in the pool. -/
def sBeg : State := (do_async_begin 0 sConn).2

/-- A handle with one buffered write, used to tell handles apart. -/
def txnA : Txn := ⟨[], [([1], some [1])]⟩

/-- A distinct empty handle. -/
def txnB : Txn := ⟨[], []⟩

/-- A connected state with `txnA` parked for session 0. -/
def sParkA : State := put_txn 0 txnA sConn

/-! ## Association-list lemmas -/

theorem lookup_cons_self {α β : Type} [BEq α] [LawfulBEq α] (k : α) (b : β)
    (rest : List (α × β)) : List.lookup k ((k, b) :: rest) = some b := by
  simp [List.lookup]

theorem lookup_cons_ne {α β : Type} [BEq α] [LawfulBEq α] {k a : α} (b : β)
    (rest : List (α × β)) (h : k ≠ a) :
    List.lookup k ((a, b) :: rest) = List.lookup k rest := by
  simp [List.lookup, beq_eq_false_iff_ne.mpr h]

theorem lookup_alistErase_self {α β : Type} [BEq α] [LawfulBEq α] (k : α)
    (l : List (α × β)) : (alistErase k l).lookup k = none := by
  induction l with
  | nil => rfl
  | cons p rest ih =>
    rcases p with ⟨a, b⟩
    by_cases h : a = k
    · simpa [alistErase, List.filter_cons, h] using ih
    · simp only [alistErase, List.filter_cons] at ih ⊢
      rw [if_pos (by simpa [bne_iff_ne] using h), lookup_cons_ne b _ (Ne.symm h)]
      exact ih

theorem lookup_alistErase_ne {α β : Type} [BEq α] [LawfulBEq α] {k k' : α}
    (l : List (α × β)) (h : k ≠ k') :
    (alistErase k' l).lookup k = l.lookup k := by
  induction l with
  | nil => rfl
  | cons p rest ih =>
    rcases p with ⟨a, b⟩
    by_cases ha : a = k'
    · subst ha
      simp only [alistErase, List.filter_cons] at ih ⊢
      rw [if_neg (by simp [bne_iff_ne]), lookup_cons_ne b _ h]
      exact ih
    · simp only [alistErase, List.filter_cons] at ih ⊢
      rw [if_pos (by simpa [bne_iff_ne] using ha)]
      by_cases hk : k = a
      · subst hk
        rw [lookup_cons_self, lookup_cons_self]
      · rw [lookup_cons_ne b _ hk, lookup_cons_ne b _ hk]
        exact ih

theorem lookup_alistInsert_self {α β : Type} [BEq α] [LawfulBEq α] (k : α)
    (v : β) (l : List (α × β)) : (alistInsert k v l).lookup k = some v := by
  simp [alistInsert, lookup_cons_self]

theorem lookup_alistInsert_ne {α β : Type} [BEq α] [LawfulBEq α] {k k' : α}
    (v : β) (l : List (α × β)) (h : k ≠ k') :
    (alistInsert k' v l).lookup k = l.lookup k := by
  rw [alistInsert, lookup_cons_ne v _ h, lookup_alistErase_ne l h]

theorem mem_of_lookup_eq_some {α β : Type} [BEq α] [LawfulBEq α] {k : α}
    {v : β} {l : List (α × β)} (h : l.lookup k = some v) : (k, v) ∈ l := by
  induction l with
  | nil => simp [List.lookup] at h
  | cons p rest ih =>
    rcases p with ⟨a, b⟩
    by_cases hk : k = a
    · subst hk
      rw [lookup_cons_self] at h
      simp [← Option.some.inj h]
    · rw [lookup_cons_ne b _ hk] at h
      exact List.mem_cons_of_mem _ (ih h)

theorem lookup_eq_some_of_mem {α β : Type} [BEq α] [LawfulBEq α]
    {l : List (α × β)} {p : α × β} (hnd : (l.map Prod.fst).Nodup)
    (h : p ∈ l) : l.lookup p.1 = some p.2 := by
  induction l with
  | nil => simp at h
  | cons q rest ih =>
    rcases q with ⟨a, b⟩
    simp only [List.map_cons, List.nodup_cons] at hnd
    rcases List.mem_cons.1 h with h1 | h1
    · rw [h1]
      exact lookup_cons_self a b rest
    · have hne : p.1 ≠ a := by
        intro he
        exact hnd.1 (he ▸ List.mem_map_of_mem Prod.fst h1)
      rw [lookup_cons_ne b _ hne]
      exact ih hnd.2 h1

theorem nodup_keys_alistErase {α β : Type} [BEq α] (k : α)
    {l : List (α × β)} (h : (l.map Prod.fst).Nodup) :
    ((alistErase k l).map Prod.fst).Nodup := by
  have hs : ((alistErase k l).map Prod.fst).Sublist (l.map Prod.fst) :=
    (List.filter_sublist l).map Prod.fst
  exact h.sublist hs

theorem not_mem_keys_alistErase {α β : Type} [BEq α] [LawfulBEq α] (k : α)
    (l : List (α × β)) : k ∉ (alistErase k l).map Prod.fst := by
  intro h
  rcases List.mem_map.1 h with ⟨p, hp, he⟩
  rcases List.mem_filter.1 hp with ⟨_, hb⟩
  rw [he] at hb
  simp at hb

theorem nodup_keys_alistInsert {α β : Type} [BEq α] [LawfulBEq α] (k : α)
    (v : β) {l : List (α × β)} (h : (l.map Prod.fst).Nodup) :
    ((alistInsert k v l).map Prod.fst).Nodup := by
  simp only [alistInsert, List.map_cons, List.nodup_cons]
  exact ⟨not_mem_keys_alistErase k l, nodup_keys_alistErase k h⟩

/-! ## Transaction-view lemmas -/

theorem lookup_applyMut (m : Bytes × Option Bytes) (l : List (Bytes × Bytes))
    (k : Bytes) :
    (applyMut m l).lookup k = if k = m.1 then m.2 else l.lookup k := by
  rcases m with ⟨k0, ov⟩
  by_cases h : k = k0
  · subst h
    cases ov with
    | none => simp [applyMut, lookup_alistErase_self]
    | some v => simp [applyMut, lookup_alistInsert_self]
  · cases ov with
    | none => simp [applyMut, lookup_alistErase_ne _ h, h]
    | some v => simp [applyMut, lookup_alistInsert_ne _ _ h, h]

theorem lookup_txnView (t : Txn) (k : Bytes) :
    (txnView t).lookup k = txnGet t k := by
  rcases t with ⟨snap, buf⟩
  induction buf with
  | nil => rfl
  | cons m rest ih =>
    rcases m with ⟨k0, ov⟩
    simp only [txnView, List.foldr_cons] at ih ⊢
    rw [lookup_applyMut]
    by_cases h : k = k0
    · subst h
      simp [txnGet, List.lookup]
    · simp only [h, if_false]
      rw [ih]
      simp only [txnGet]
      rw [lookup_cons_ne ov rest h]

theorem nodup_keys_applyMut (m : Bytes × Option Bytes)
    {l : List (Bytes × Bytes)} (h : (l.map Prod.fst).Nodup) :
    ((applyMut m l).map Prod.fst).Nodup := by
  rcases m with ⟨k0, ov⟩
  cases ov with
  | none => exact nodup_keys_alistErase k0 h
  | some v => exact nodup_keys_alistInsert k0 v h

/-- Well-formed handle: the snapshot's keys are distinct (always true of a
snapshot taken from a `HashMap`-backed committed store). -/
def txnWF (t : Txn) : Prop := (t.snapshot.map Prod.fst).Nodup

instance (t : Txn) : Decidable (txnWF t) := by
  unfold txnWF
  infer_instance

theorem nodup_keys_txnView {t : Txn} (h : txnWF t) :
    ((txnView t).map Prod.fst).Nodup := by
  rcases t with ⟨snap, buf⟩
  simp only [txnWF] at h
  simp only [txnView]
  induction buf with
  | nil => exact h
  | cons m rest ih => exact nodup_keys_applyMut m ih

theorem mem_txnView_iff {t : Txn} (h : txnWF t) (p : Bytes × Bytes) :
    p ∈ txnView t ↔ txnGet t p.1 = some p.2 := by
  constructor
  · intro hm
    rw [← lookup_txnView]
    exact lookup_eq_some_of_mem (nodup_keys_txnView h) hm
  · intro hl
    rw [← lookup_txnView] at hl
    exact mem_of_lookup_eq_some hl

/-! ## Lexicographic-order and sorting lemmas -/

theorem ltBytes_asymm {x y : Bytes} (h : ltBytes x y = true) :
    ltBytes y x = false := by
  induction x generalizing y with
  | nil =>
    cases y with
    | nil => simp [ltBytes] at h
    | cons b bs => rfl
  | cons a as_ ih =>
    cases y with
    | nil => simp [ltBytes] at h
    | cons b bs =>
      by_cases hab : a < b
      · simp [ltBytes, hab, Nat.lt_asymm hab, Nat.ne_of_gt hab]
      · by_cases hba : b < a
        · simp [ltBytes, hab, hba] at h
        · have : ¬a < b ∧ ¬b < a := ⟨hab, hba⟩
          simp [ltBytes, hab, hba] at h ⊢
          exact ih h

/-- The squeeze lemma for the codec prefix: a byte string lying between two
strings sharing a first byte must itself start with that byte, and the
remainders keep the same bounds. -/
theorem squeeze_cons {c : Nat} {a b k : Bytes}
    (hlo : leBytes (c :: a) k = true) (hhi : ltBytes k (c :: b) = true) :
    ∃ r, k = c :: r ∧ leBytes a r = true ∧ ltBytes r b = true := by
  cases k with
  | nil => simp [leBytes, ltBytes] at hlo
  | cons x k1 =>
    by_cases hcx : c < x
    · exfalso
      have hxc : ¬x < c := Nat.lt_asymm hcx
      simp [ltBytes, hxc, hcx] at hhi
    · by_cases hxc : x < c
      · exfalso
        simp [leBytes, ltBytes, hcx, hxc] at hlo
        exact absurd hlo.1 (Ne.symm (Nat.ne_of_lt hxc))
      · have hce : c = x := Nat.le_antisymm (Nat.le_of_not_lt hxc) (Nat.le_of_not_lt hcx)
        subst hce
        refine ⟨k1, rfl, ?_, ?_⟩
        · rw [leBytes, Bool.or_eq_true] at hlo
          rcases hlo with he | hlt
          · have : a = k1 := (List.cons.inj (eq_of_beq he)).2
            simp [leBytes, this]
          · simp only [ltBytes, Nat.lt_irrefl, if_false] at hlt
            simp [leBytes, hlt]
        · simpa [ltBytes] using hhi

theorem mem_insKV {p q : Bytes × Bytes} {l : List (Bytes × Bytes)}
    (h : p ∈ insKV q l) : p = q ∨ p ∈ l := by
  induction l with
  | nil => simp [insKV] at h; exact Or.inl h
  | cons r rest ih =>
    simp only [insKV] at h
    by_cases hc : ltBytes q.1 r.1 = true
    · rw [if_pos hc] at h
      rcases List.mem_cons.1 h with h1 | h1
      · exact Or.inl h1
      · exact Or.inr h1
    · rw [if_neg hc] at h
      rcases List.mem_cons.1 h with h1 | h1
      · exact Or.inr (List.mem_cons.2 (Or.inl h1))
      · rcases ih h1 with h2 | h2
        · exact Or.inl h2
        · exact Or.inr (List.mem_cons.2 (Or.inr h2))

theorem mem_sortKV {p : Bytes × Bytes} {l : List (Bytes × Bytes)}
    (h : p ∈ sortKV l) : p ∈ l := by
  induction l with
  | nil => simp [sortKV] at h
  | cons q rest ih =>
    simp only [sortKV] at h
    rcases mem_insKV h with h1 | h1
    · exact List.mem_cons.2 (Or.inl h1)
    · exact List.mem_cons.2 (Or.inr (ih h1))

/-- Every entry a scan returns lies in the requested half-open range and in
the transaction's view. -/
theorem mem_txnScan {t : Txn} {lo hi : Bytes} {limit : Nat}
    {p : Bytes × Bytes} (h : p ∈ txnScan t lo hi limit) :
    p ∈ txnView t ∧ leBytes lo p.1 = true ∧ ltBytes p.1 hi = true := by
  have h1 : p ∈ sortKV ((txnView t).filter
      (fun q => leBytes lo q.1 && ltBytes q.1 hi)) := List.mem_of_mem_take h
  have h2 := mem_sortKV h1
  rcases List.mem_filter.1 h2 with ⟨hm, hb⟩
  rw [Bool.and_eq_true] at hb
  exact ⟨hm, hb.1, hb.2⟩

/-! ## State-shape lemmas for the reachability invariant -/

theorem pd_get_txn_client (s : State) :
    ((get_txn_client s).2).pdAddrs = s.pdAddrs := by
  rcases s with ⟨pd, tx, pool, nc, gc, st⟩
  cases pool <;> cases pd <;> rfl

theorem pd_finish_txn (env : Env) (cid : Nat) (t : Txn) (b : Bool) (s : State) :
    ((finish_txn env cid t b s).2).pdAddrs = s.pdAddrs := by
  cases b with
  | true => rfl
  | false =>
    rcases env with ⟨cf⟩
    cases cf <;> rfl

theorem pd_get_transaction (cid : Nat) (s : State) :
    ((get_transaction cid s).2).pdAddrs = s.pdAddrs := by
  unfold get_transaction
  by_cases h : has_txn cid s = true
  · rw [if_pos h]
    cases hl : s.txns.lookup cid <;> simp [get_txn, hl]
  · rw [if_neg h]
    rcases hg : get_txn_client s with ⟨r, s1⟩
    have hpd : s1.pdAddrs = s.pdAddrs := by rw [← pd_get_txn_client s, hg]
    cases r <;> simp [hg, put_txn_client, hpd]

theorem pd_do_async_get (env : Env) (cid : Nat) (k : Bytes) (s : State) :
    ((do_async_get env cid k s).2).pdAddrs = s.pdAddrs := by
  unfold do_async_get
  rcases hg : get_transaction cid s with ⟨r, s1⟩
  have hpd1 : s1.pdAddrs = s.pdAddrs := by rw [← pd_get_transaction cid s, hg]
  cases r with
  | error e => simp [hg, hpd1]
  | ok t =>
    rcases hf : finish_txn env cid t (has_txn cid s) s1 with ⟨r2, s2⟩
    have hpd2 : s2.pdAddrs = s1.pdAddrs := by
      rw [← pd_finish_txn env cid t (has_txn cid s) s1, hf]
    cases r2 <;> simp [hg, hf, hpd1, hpd2]

theorem pd_do_async_get_raw (env : Env) (cid : Nat) (k : Bytes) (s : State) :
    ((do_async_get_raw env cid k s).2).pdAddrs = s.pdAddrs := by
  unfold do_async_get_raw
  rcases hg : get_transaction cid s with ⟨r, s1⟩
  have hpd1 : s1.pdAddrs = s.pdAddrs := by rw [← pd_get_transaction cid s, hg]
  cases r with
  | error e => simp [hg, hpd1]
  | ok t =>
    rcases hf : finish_txn env cid t (has_txn cid s) s1 with ⟨r2, s2⟩
    have hpd2 : s2.pdAddrs = s1.pdAddrs := by
      rw [← pd_finish_txn env cid t (has_txn cid s) s1, hf]
    cases r2 with
    | error e => simp [hg, hf, hpd1, hpd2]
    | ok n =>
      cases hv : txnGet t (encode_key .Raw k) <;> simp [hg, hf, hpd1, hpd2, hv]

theorem pd_do_async_put (env : Env) (cid : Nat) (k v : Bytes) (s : State) :
    ((do_async_put env cid k v s).2).pdAddrs = s.pdAddrs := by
  unfold do_async_put
  rcases hg : get_transaction cid s with ⟨r, s1⟩
  have hpd1 : s1.pdAddrs = s.pdAddrs := by rw [← pd_get_transaction cid s, hg]
  cases r with
  | error e => simp [hg, hpd1]
  | ok t =>
    rcases hf : finish_txn env cid (txnPut t (encode_key .Raw k) v)
        (has_txn cid s) s1 with ⟨r2, s2⟩
    have hpd2 : s2.pdAddrs = s1.pdAddrs := by
      rw [← pd_finish_txn env cid (txnPut t (encode_key .Raw k) v) (has_txn cid s) s1, hf]
    cases r2 <;> simp [hg, hf, hpd1, hpd2]

theorem pd_do_async_batch_get (env : Env) (cid : Nat) (ks : List Bytes) (s : State) :
    ((do_async_batch_get env cid ks s).2).pdAddrs = s.pdAddrs := by
  unfold do_async_batch_get
  rcases hg : get_transaction cid s with ⟨r, s1⟩
  have hpd1 : s1.pdAddrs = s.pdAddrs := by rw [← pd_get_transaction cid s, hg]
  cases r with
  | error e => simp [hg, hpd1]
  | ok t =>
    rcases hf : finish_txn env cid t (has_txn cid s) s1 with ⟨r2, s2⟩
    have hpd2 : s2.pdAddrs = s1.pdAddrs := by
      rw [← pd_finish_txn env cid t (has_txn cid s) s1, hf]
    cases r2 <;> simp [hg, hf, hpd1, hpd2]

theorem pd_do_async_scan_range (env : Env) (cid : Nat) (a b : Bytes) (lim : Nat)
    (s : State) : ((do_async_scan_range env cid a b lim s).2).pdAddrs = s.pdAddrs := by
  unfold do_async_scan_range
  rcases hg : get_transaction cid s with ⟨r, s1⟩
  have hpd1 : s1.pdAddrs = s.pdAddrs := by rw [← pd_get_transaction cid s, hg]
  cases r with
  | error e => simp [hg, hpd1]
  | ok t =>
    rcases hf : finish_txn env cid t (has_txn cid s) s1 with ⟨r2, s2⟩
    have hpd2 : s2.pdAddrs = s1.pdAddrs := by
      rw [← pd_finish_txn env cid t (has_txn cid s) s1, hf]
    cases r2 <;> simp [hg, hf, hpd1, hpd2]

theorem pd_do_async_begin (cid : Nat) (s : State) :
    ((do_async_begin cid s).2).pdAddrs = s.pdAddrs := by
  unfold do_async_begin
  cases hp : s.pdAddrs with
  | none => simp [get_pd_addrs, hp]
  | some a =>
    by_cases ht : has_txn cid s = true
    · simp [get_pd_addrs, hp, ht]
    · rcases hg : get_txn_client s with ⟨r, s1⟩
      have hpd : s1.pdAddrs = s.pdAddrs := by rw [← pd_get_txn_client s, hg]
      cases r <;> simp [get_pd_addrs, hp, ht, hg, put_txn_client, put_txn, hpd]

theorem pd_do_async_commit (env : Env) (cid : Nat) (s : State) :
    ((do_async_commit env cid s).2).pdAddrs = s.pdAddrs := by
  unfold do_async_commit
  cases hp : s.pdAddrs with
  | none => simp [get_pd_addrs, hp]
  | some a =>
    by_cases ht : has_txn cid s = true
    · rcases env with ⟨cf⟩
      cases hl : s.txns.lookup cid with
      | none => simp [get_pd_addrs, hp, ht, get_txn, hl]
      | some t => cases cf <;> simp [get_pd_addrs, hp, ht, get_txn, hl, txnCommit]
    · simp [get_pd_addrs, hp, ht]

theorem pd_do_async_rollback (cid : Nat) (s : State) :
    ((do_async_rollback cid s).2).pdAddrs = s.pdAddrs := by
  unfold do_async_rollback
  cases hp : s.pdAddrs with
  | none => simp [get_pd_addrs, hp]
  | some a =>
    by_cases ht : has_txn cid s = true
    · cases hl : s.txns.lookup cid <;> simp [get_pd_addrs, hp, ht, get_txn, hl]
    · simp [get_pd_addrs, hp, ht]

theorem close_fields (s : State) :
    ((do_async_close s).2).pdAddrs = s.pdAddrs ∧
    ((do_async_close s).2).connPool = s.connPool ∧
    ((do_async_close s).2).txns = s.txns := by
  rcases s with ⟨pd, tx, pool, nc, gc, st⟩
  cases gc <;> exact ⟨rfl, rfl, rfl⟩

/-! ## Stuck lemmas: nothing configured, nothing pooled, nothing parked -/

theorem stuck_get_txn_client {s : State} (h1 : s.pdAddrs = none)
    (h2 : s.connPool = []) : get_txn_client s = (.error .notConnected, s) := by
  rcases s with ⟨pd, tx, pool, nc, gc, st⟩
  simp only at h1 h2
  subst h1; subst h2
  rfl

theorem stuck_get_transaction {cid : Nat} {s : State} (h1 : s.pdAddrs = none)
    (h2 : s.connPool = []) (h3 : s.txns = []) :
    get_transaction cid s = (.error .notConnected, s) := by
  have ht : has_txn cid s = false := by simp [has_txn, h3, List.lookup]
  unfold get_transaction
  rw [if_neg (by simp [ht]), stuck_get_txn_client h1 h2]

theorem stuck_do_async_get {env : Env} {cid : Nat} {k : Bytes} {s : State}
    (h1 : s.pdAddrs = none) (h2 : s.connPool = []) (h3 : s.txns = []) :
    do_async_get env cid k s = (.error .notConnected, s) := by
  unfold do_async_get
  rw [stuck_get_transaction h1 h2 h3]

theorem stuck_do_async_get_raw {env : Env} {cid : Nat} {k : Bytes} {s : State}
    (h1 : s.pdAddrs = none) (h2 : s.connPool = []) (h3 : s.txns = []) :
    do_async_get_raw env cid k s = (.error .notConnected, s) := by
  unfold do_async_get_raw
  rw [stuck_get_transaction h1 h2 h3]

theorem stuck_do_async_put {env : Env} {cid : Nat} {k v : Bytes} {s : State}
    (h1 : s.pdAddrs = none) (h2 : s.connPool = []) (h3 : s.txns = []) :
    do_async_put env cid k v s = (.error .notConnected, s) := by
  unfold do_async_put
  rw [stuck_get_transaction h1 h2 h3]

theorem stuck_do_async_batch_get {env : Env} {cid : Nat} {ks : List Bytes}
    {s : State} (h1 : s.pdAddrs = none) (h2 : s.connPool = []) (h3 : s.txns = []) :
    do_async_batch_get env cid ks s = (.error .notConnected, s) := by
  unfold do_async_batch_get
  rw [stuck_get_transaction h1 h2 h3]

theorem stuck_do_async_scan_range {env : Env} {cid : Nat} {a b : Bytes}
    {lim : Nat} {s : State} (h1 : s.pdAddrs = none) (h2 : s.connPool = [])
    (h3 : s.txns = []) :
    do_async_scan_range env cid a b lim s = (.error .notConnected, s) := by
  unfold do_async_scan_range
  rw [stuck_get_transaction h1 h2 h3]

theorem stuck_do_async_begin {cid : Nat} {s : State} (h1 : s.pdAddrs = none) :
    do_async_begin cid s = (.error .notConnected, s) := by
  unfold do_async_begin
  simp [get_pd_addrs, h1]

theorem stuck_do_async_commit {env : Env} {cid : Nat} {s : State}
    (h1 : s.pdAddrs = none) :
    do_async_commit env cid s = (.error .notConnected, s) := by
  unfold do_async_commit
  simp [get_pd_addrs, h1]

theorem stuck_do_async_rollback {cid : Nat} {s : State} (h1 : s.pdAddrs = none) :
    do_async_rollback cid s = (.error .notConnected, s) := by
  unfold do_async_rollback
  simp [get_pd_addrs, h1]

/-! ## The reachability invariant -/

/-- In every reachable state, an unconfigured address set implies an empty
connection freelist and an empty session registry: the pool can only ever
be populated after `connect` has recorded addresses, and addresses are
never cleared again (not even by `close`). -/
theorem reachable_inv {s : State} (h : Reachable s) :
    s.pdAddrs = none → s.connPool = [] ∧ s.txns = [] := by
  induction h with
  | init => intro _; exact ⟨rfl, rfl⟩
  | connect a s hs ih => intro hp; simp [do_async_connect] at hp
  | close s hs ih =>
    intro hp
    rcases close_fields s with ⟨f1, f2, f3⟩
    rcases ih (f1 ▸ hp) with ⟨g1, g2⟩
    exact ⟨f2.trans g1, f3.trans g2⟩
  | beginTx cid s hs ih =>
    intro hp
    have hp0 : s.pdAddrs = none := (pd_do_async_begin cid s) ▸ hp
    rw [stuck_do_async_begin hp0]
    exact ih hp0
  | commit env cid s hs ih =>
    intro hp
    have hp0 : s.pdAddrs = none := (pd_do_async_commit env cid s) ▸ hp
    rw [stuck_do_async_commit hp0]
    exact ih hp0
  | rollback cid s hs ih =>
    intro hp
    have hp0 : s.pdAddrs = none := (pd_do_async_rollback cid s) ▸ hp
    rw [stuck_do_async_rollback hp0]
    exact ih hp0
  | get env cid k s hs ih =>
    intro hp
    have hp0 : s.pdAddrs = none := (pd_do_async_get env cid k s) ▸ hp
    rcases ih hp0 with ⟨g1, g2⟩
    rw [stuck_do_async_get hp0 g1 g2]
    exact ⟨g1, g2⟩
  | getRaw env cid k s hs ih =>
    intro hp
    have hp0 : s.pdAddrs = none := (pd_do_async_get_raw env cid k s) ▸ hp
    rcases ih hp0 with ⟨g1, g2⟩
    rw [stuck_do_async_get_raw hp0 g1 g2]
    exact ⟨g1, g2⟩
  | put env cid k v s hs ih =>
    intro hp
    have hp0 : s.pdAddrs = none := (pd_do_async_put env cid k v s) ▸ hp
    rcases ih hp0 with ⟨g1, g2⟩
    rw [stuck_do_async_put hp0 g1 g2]
    exact ⟨g1, g2⟩
  | batchGet env cid ks s hs ih =>
    intro hp
    have hp0 : s.pdAddrs = none := (pd_do_async_batch_get env cid ks s) ▸ hp
    rcases ih hp0 with ⟨g1, g2⟩
    rw [stuck_do_async_batch_get hp0 g1 g2]
    exact ⟨g1, g2⟩
  | scanRange env cid a b lim s hs ih =>
    intro hp
    have hp0 : s.pdAddrs = none := (pd_do_async_scan_range env cid a b lim s) ▸ hp
    rcases ih hp0 with ⟨g1, g2⟩
    rw [stuck_do_async_scan_range hp0 g1 g2]
    exact ⟨g1, g2⟩

/-! ## Auto-commit helpers -/

theorem finish_auto_ok (env : Env) (cid : Nat) (t : Txn) (s : State)
    (hcf : env.commitFail = none) :
    finish_txn env cid t false s =
      (.ok 1, { s with store := t.buffer.foldr applyMut s.store }) := by
  simp [finish_txn, txnCommit, hcf]

theorem finish_auto_err (env : Env) (cid : Nat) (t : Txn) (s : State) (n : Nat)
    (hcf : env.commitFail = some n) :
    finish_txn env cid t false s = (.error (.commitErr n), s) := by
  simp [finish_txn, txnCommit, hcf]

/-! ## Claim theorems -/

/-- Claim C7: `get_txn_client` (pool acquire) pops the front idle connection
when the freelist is nonempty — establishing nothing, `nextConn` untouched —
establishes a fresh connection only on an empty freelist with addresses
configured, and in every reachable state with the backing-service address
set unconfigured it fails with `NotConnected`. -/
theorem acquire_pops_then_creates (s : State) (hr : Reachable s) :
    (∀ c rest, s.connPool = c :: rest →
      get_txn_client s = (.ok c, { s with connPool := rest })) ∧
    (∀ a, s.connPool = [] → s.pdAddrs = some a →
      get_txn_client s = (.ok s.nextConn, { s with nextConn := s.nextConn + 1 })) ∧
    (s.pdAddrs = none → get_txn_client s = (.error .notConnected, s)) := by
  refine ⟨?_, ?_, ?_⟩
  · intro c rest hp
    simp [get_txn_client, hp]
  · intro a hp ha
    simp [get_txn_client, hp, ha]
  · intro hp
    rcases reachable_inv hr hp with ⟨g1, _⟩
    exact stuck_get_txn_client hp g1

/-- Witness for C7: after connect then begin, the pool holds the released
connection and acquire pops exactly it; at process start nothing is
configured and acquire fails with `NotConnected`. -/
theorem acquire_pops_then_creates_witness :
    get_txn_client sBeg = (.ok 0, { sBeg with connPool := [] }) ∧
    get_txn_client initState = (.error .notConnected, initState) := by
  constructor
  · exact (acquire_pops_then_creates sBeg
      (Reachable.beginTx 0 sConn
        (Reachable.connect ["pd"] initState Reachable.init))).1 0 [] (by decide)
  · exact (acquire_pops_then_creates initState Reachable.init).2.2 (by decide)

/-- Claim C4: with addresses configured, `commit` and `rollback` on a
session with no parked handle fail with TransactionNotStarted returning the
state untouched, and `begin` on a session that already has a parked handle
fails with TransactionAlreadyStarted returning the state untouched. -/
theorem explicit_verbs_guard (env : Env) (cid : Nat) (s : State)
    (hpd : s.pdAddrs ≠ none) :
    (has_txn cid s = false →
      do_async_commit env cid s = (.error .txnNotStarted, s) ∧
      do_async_rollback cid s = (.error .txnNotStarted, s)) ∧
    (has_txn cid s = true →
      do_async_begin cid s = (.error .txnAlreadyStarted, s)) := by
  rcases hp : s.pdAddrs with _ | a
  · exact absurd hp hpd
  constructor
  · intro ht
    constructor
    · unfold do_async_commit
      simp [get_pd_addrs, hp, ht]
    · unfold do_async_rollback
      simp [get_pd_addrs, hp, ht]
  · intro ht
    unfold do_async_begin
    simp [get_pd_addrs, hp, ht]

/-- Witness for C4: on the freshly connected state no handle is parked, so
commit and rollback fail with TransactionNotStarted; with a handle parked,
begin fails with TransactionAlreadyStarted. -/
theorem explicit_verbs_guard_witness :
    do_async_commit env0 0 sConn = (.error .txnNotStarted, sConn) ∧
    do_async_rollback 0 sConn = (.error .txnNotStarted, sConn) ∧
    do_async_begin 0 sParkA = (.error .txnAlreadyStarted, sParkA) := by
  refine ⟨?_, ?_, ?_⟩
  · exact ((explicit_verbs_guard env0 0 sConn (by decide)).1 (by decide)).1
  · exact ((explicit_verbs_guard env0 0 sConn (by decide)).1 (by decide)).2
  · exact (explicit_verbs_guard env0 0 sParkA (by decide)).2 (by decide)

/-- Claim C3: auto-commit mode — when no handle is parked for the session
and a connection is obtainable, a `put` commits before returning: on
success the write is in the committed store and the registry is exactly as
before (nothing parked, nothing open); if the commit fails, the very same
call returns that failure to the caller — and still parks nothing. -/
theorem autocommit_put (env : Env) (cid : Nat) (key val : Bytes) (s : State)
    (hno : has_txn cid s = false)
    (hacq : s.connPool ≠ [] ∨ s.pdAddrs ≠ none) :
    (env.commitFail = none →
      ∃ s2, do_async_put env cid key val s = (.ok (), s2) ∧
        s2.txns = s.txns ∧
        s2.store.lookup (encode_key .Raw key) = some val) ∧
    (∀ n, env.commitFail = some n →
      ∃ s2, do_async_put env cid key val s = (.error (.commitErr n), s2) ∧
        s2.txns = s.txns) := by
  have hgt : ∃ conn s1, get_txn_client s = (.ok conn, s1) ∧
      s1.txns = s.txns ∧ s1.store = s.store := by
    rcases hp : s.connPool with _ | ⟨c, rest⟩
    · rcases ha : s.pdAddrs with _ | a
      · rcases hacq with h | h
        · exact absurd hp h
        · exact absurd ha h
      · exact ⟨s.nextConn, { s with nextConn := s.nextConn + 1 },
          by simp [get_txn_client, hp, ha], rfl, rfl⟩
    · exact ⟨c, { s with connPool := rest }, by simp [get_txn_client, hp], rfl, rfl⟩
  rcases hgt with ⟨conn, s1, hg, ht1, hs1⟩
  have hget : get_transaction cid s = (.ok (txnBegin s1), put_txn_client conn s1) := by
    unfold get_transaction
    rw [if_neg (by simp [hno]), hg]
  constructor
  · intro hcf
    refine ⟨{ put_txn_client conn s1 with
        store := (txnPut (txnBegin s1) (encode_key .Raw key) val).buffer.foldr
          applyMut (put_txn_client conn s1).store }, ?_, ?_, ?_⟩
    · simp only [do_async_put, hget, hno]
      rw [finish_auto_ok env cid _ _ hcf]
    · simp [put_txn_client, ht1]
    · simp [txnPut, txnBegin, applyMut, put_txn_client, hs1,
        lookup_alistInsert_self]
  · intro n hcf
    refine ⟨put_txn_client conn s1, ?_, ?_⟩
    · simp only [do_async_put, hget, hno]
      rw [finish_auto_err env cid _ _ n hcf]
    · simp [put_txn_client, ht1]

/-- Witness for C3: on the freshly connected state, an auto-commit put of
"a"↦"1" succeeds leaving the registry empty and the value committed; with a
failing remote commit the same put returns the commit failure. -/
theorem autocommit_put_witness :
    (do_async_put env0 0 [97] [49] sConn).1 = .ok () ∧
    (do_async_put env0 0 [97] [49] sConn).2.txns = sConn.txns ∧
    (do_async_put env0 0 [97] [49] sConn).2.store.lookup
      (encode_key .Raw [97]) = some [49] ∧
    (do_async_put ⟨some 7⟩ 1 [97] [49] sConn).1 = .error (.commitErr 7) := by
  rcases (autocommit_put env0 0 [97] [49] sConn (by decide)
    (Or.inr (by decide))).1 rfl with ⟨s2, he, ht, hs⟩
  rcases (autocommit_put ⟨some 7⟩ 1 [97] [49] sConn (by decide)
    (Or.inr (by decide))).2 7 rfl with ⟨s3, he3, _⟩
  rw [he, he3]
  exact ⟨rfl, ht, hs, rfl⟩

/-- Claim C8: a transactional read on a session whose registry held a
parked handle succeeds, parks the very same handle back — the registry maps
every session exactly as before — commits nothing (store untouched) and
leaves the pool alone, so the transaction stays open for the next call;
`finish_txn` in parked mode parks the handle back unchanged. -/
theorem parked_handle_roundtrip (env : Env) (cid : Nat) (key : Bytes)
    (s : State) (t : Txn) (h : s.txns.lookup cid = some t) :
    (∀ t1 s0, finish_txn env cid t1 true s0 = (.ok 1, put_txn cid t1 s0)) ∧
    ∃ s2, do_async_get env cid key s =
        (.ok (txnGet t (encode_key .Raw key)), s2) ∧
      (∀ c, s2.txns.lookup c = s.txns.lookup c) ∧
      s2.store = s.store ∧ s2.connPool = s.connPool := by
  have ht : has_txn cid s = true := by simp [has_txn, h]
  have hget : get_transaction cid s =
      (.ok t, { s with txns := alistErase cid s.txns }) := by
    unfold get_transaction
    rw [if_pos ht]
    simp [get_txn, h]
  refine ⟨fun t1 s0 => rfl,
    put_txn cid t { s with txns := alistErase cid s.txns }, ?_, ?_, rfl, rfl⟩
  · simp only [do_async_get, hget, ht, finish_txn, if_true]
  · intro c
    by_cases hc : c = cid
    · subst hc
      simp [put_txn, lookup_alistInsert_self, h]
    · simp [put_txn, lookup_alistInsert_ne _ _ hc, lookup_alistErase_ne _ hc]

/-- Witness for C8: with `txnA` parked for session 0, a get on session 0
returns through the parked handle and the registry again maps session 0 to
exactly `txnA`. -/
theorem parked_handle_roundtrip_witness :
    (do_async_get env0 0 [5] sParkA).1 =
      .ok (txnGet txnA (encode_key .Raw [5])) ∧
    (do_async_get env0 0 [5] sParkA).2.txns.lookup 0 = some txnA := by
  rcases (parked_handle_roundtrip env0 0 [5] sParkA txnA (by decide)).2 with
    ⟨s2, he, hl, _, _⟩
  rw [he]
  exact ⟨rfl, (hl 0).trans (by decide)⟩

/-- Claim C1 (code bug, evaluated): after auto-commit puts of "a"↦"1" and
"b"↦"2", batch-get of ["a","missing","b"] returns Null at every position —
not ["1", Null, "2"] — because the result map is keyed by the ENCODED keys
the remote call returned while the code looks each ORIGINAL key up
unencoded (tikv.rs line 247); the second and third conjuncts show the map
answers under the encoded key and misses under the raw key. -/
theorem batch_get_lookup_mismatch :
    (do_async_batch_get env0 0 [[97], [109], [98]] sAB).1 =
      .ok [.null, .null, .null] ∧
    hmGet (wrap_batch_get (txnBegin sAB) (encode_keys .Raw [[97], [109], [98]]))
      (encode_key .Raw [97]) = some [49] ∧
    hmGet (wrap_batch_get (txnBegin sAB) (encode_keys .Raw [[97], [109], [98]]))
      [97] = none := by decide

/-- Claim C2 counterexample: on `sBeg` — global client present, one pooled
transactional connection — close succeeds, the pooled connection survives
in the freelist, and a subsequent `begin` on another session succeeds using
it: the freelist does hold a usable connection after close returns. -/
theorem close_leaves_pool_cex :
    (do_async_close sBeg).1 = .ok "Closed" ∧
    (do_async_close sBeg).2.connPool = [0] ∧
    (do_async_begin 1 (do_async_close sBeg).2).1 = .ok () := by decide

/-- Claim C2 (amended): a successful close invalidates only the Global
Non-Transactional Client — afterwards operations needing it, including a
second close, fail with NotConnected — while the connection freelist, the
configured addresses and the parked transactions are untouched. -/
theorem close_invalidates_only_global_client (s : State)
    (h : s.globalClient ≠ none) :
    do_async_close s = (.ok "Closed", { s with globalClient := none }) ∧
    get_client { s with globalClient := none } = .error .notConnected ∧
    (do_async_close { s with globalClient := none }).1 = .error .notConnected ∧
    ({ s with globalClient := none } : State).connPool = s.connPool ∧
    ({ s with globalClient := none } : State).pdAddrs = s.pdAddrs ∧
    ({ s with globalClient := none } : State).txns = s.txns := by
  rcases hg : s.globalClient with _ | c
  · exact absurd hg h
  · exact ⟨by simp [do_async_close, get_client, hg], rfl, rfl, rfl, rfl, rfl⟩

/-- Witness for C2 (amended): closing `sBeg` drops exactly the global
client and the next use of it fails with NotConnected. -/
theorem close_invalidates_only_global_client_witness :
    do_async_close sBeg = (.ok "Closed", { sBeg with globalClient := none }) ∧
    get_client { sBeg with globalClient := none } = .error .notConnected :=
  ⟨(close_invalidates_only_global_client sBeg (by decide)).1,
   (close_invalidates_only_global_client sBeg (by decide)).2.1⟩

/-- Claim C5 counterexample: with `txnA` parked for session 0, parking
`txnB` silently replaces it — the registry afterwards holds only `txnB`,
the previously parked `txnA` is discarded, and `put_txn` (whose return type
has no error channel) signals nothing. -/
theorem put_txn_silent_overwrite_cex :
    (put_txn 0 txnB sParkA).txns = [(0, txnB)] ∧ txnA ≠ txnB := by decide

/-- Claim C5 (amended): `put_txn` has `HashMap::insert` semantics — it is
infallible and silently overwrites: after `put_txn cid t` the registry maps
`cid` to `t` regardless of any previously parked handle and leaves every
other session untouched; the at-most-one invariant is enforced by callers
checking `has_txn` first (as `do_async_begin` does), not by `put_txn`. -/
theorem put_txn_overwrites (cid : Nat) (t : Txn) (s : State) (c : Nat) :
    (put_txn cid t s).txns.lookup c =
      if c = cid then some t else s.txns.lookup c := by
  by_cases hc : c = cid
  · subst hc
    simp [put_txn, lookup_alistInsert_self]
  · simp [put_txn, lookup_alistInsert_ne _ _ hc, hc]

/-- Claim C6 (code bug, evaluated): on a key the store holds no value for,
the plain get returns normally with the explicit no-value marker, but the
raw-bytes get runs `Option::unwrap` on `None` — a Rust panic (modelled as
`panicked`), not a normal return with a no-value representation. -/
theorem get_raw_panics_on_missing :
    (do_async_get env0 0 [120] sConn).1 = .ok none ∧
    (do_async_get_raw env0 0 [120] sConn).1 = .error .panicked := by decide

/-- Claim C9: `scan_range` treats its end key as exclusive — every pair a
successful call returns has a decoded logical key `k` with
`start ≤ k < end` in byte order. -/
theorem scan_range_end_exclusive (env : Env) (cid : Nat) (a b : Bytes)
    (lim : Nat) (s : State) (res : List (Bytes × Bytes)) (s2 : State)
    (h : do_async_scan_range env cid a b lim s = (.ok res, s2)) :
    ∀ p ∈ res, leBytes a p.1 = true ∧ ltBytes p.1 b = true := by
  intro p hp
  unfold do_async_scan_range at h
  rcases hg : get_transaction cid s with ⟨r, s1⟩
  rw [hg] at h
  cases r with
  | error e => simp at h
  | ok t =>
    rcases hf : finish_txn env cid t (has_txn cid s) s1 with ⟨r2, s3⟩
    simp only [] at h
    rw [hf] at h
    cases r2 with
    | error e => simp at h
    | ok n =>
      rw [Prod.mk.injEq] at h
      rcases h with ⟨h1, _⟩
      rcases Except.ok.inj h1 with h1
      rw [← h1] at hp
      rcases List.mem_map.1 hp with ⟨q, hq, hpq⟩
      rcases mem_txnScan hq with ⟨_, hlo, hhi⟩
      simp only [encode_key] at hlo hhi
      rcases squeeze_cons hlo hhi with ⟨r1, he1, hlo1, hhi1⟩
      rcases squeeze_cons hlo1 hhi1 with ⟨r2, he2, hlo2, hhi2⟩
      have hdk : decode_key q.1 = r2 := by
        rw [he1, he2]
        rfl
      rw [← hpq]
      simpa [hdk] using ⟨hlo2, hhi2⟩

/-- Witness for C9: the spec's boundary example — after putting k1, k2, k3,
`scan_range("k1","k3",10)` returns exactly [(k1,v1),(k2,v2)] with k3
excluded, and the returned key k2 satisfies the strict upper bound. -/
theorem scan_range_end_exclusive_witness :
    leBytes [107, 49] [107, 50] = true ∧ ltBytes [107, 50] [107, 51] = true ∧
    (do_async_scan_range env0 0 [107, 49] [107, 51] 10 sK123).1 =
      .ok [([107, 49], [118, 49]), ([107, 50], [118, 50])] := by
  have h := scan_range_end_exclusive env0 0 [107, 49] [107, 51] 10 sK123
    [([107, 49], [118, 49]), ([107, 50], [118, 50])]
    (do_async_scan_range env0 0 [107, 49] [107, 51] 10 sK123).2 (by decide)
  have h2 := h ([107, 50], [118, 50]) (by simp)
  exact ⟨h2.1, h2.2, by decide⟩

/-- Claim C10: the two `wrap_batch_get` implementations agree — for a
well-formed transaction and a list of distinct keys, a pair is returned by
the single-batched-call version iff it is returned by the per-key-loop
version, and both return exactly the input keys currently holding a value,
each paired with that value. -/
theorem wrap_batch_get_equiv (t : Txn) (keys : List Bytes) (hwf : txnWF t)
    (_hnd : keys.Nodup) :
    ∀ p : Bytes × Bytes,
      (p ∈ wrap_batch_get t keys ↔ p ∈ utils.wrap_batch_get t keys) ∧
      (p ∈ wrap_batch_get t keys ↔ p.1 ∈ keys ∧ txnGet t p.1 = some p.2) := by
  intro p
  have hA : p ∈ wrap_batch_get t keys ↔ p.1 ∈ keys ∧ txnGet t p.1 = some p.2 := by
    unfold wrap_batch_get txnBatchGet
    rw [List.mem_filter]
    constructor
    · rintro ⟨hm, hc⟩
      exact ⟨by simpa using hc, (mem_txnView_iff hwf p).1 hm⟩
    · rintro ⟨hk, hv⟩
      exact ⟨(mem_txnView_iff hwf p).2 hv, by simpa using hk⟩
  have hB : p ∈ utils.wrap_batch_get t keys ↔
      p.1 ∈ keys ∧ txnGet t p.1 = some p.2 := by
    unfold utils.wrap_batch_get
    rw [List.mem_filterMap]
    constructor
    · rintro ⟨k, hk, hopt⟩
      rcases hv : txnGet t k with _ | v
      · rw [hv] at hopt
        simp at hopt
      · rw [hv] at hopt
        simp only [Option.map_some'] at hopt
        rcases Option.some.inj hopt with hpe
        rw [← hpe]
        exact ⟨hk, hv⟩
    · rintro ⟨hk, hv⟩
      exact ⟨p.1, hk, by simp [hv]⟩
  exact ⟨hA.trans hB.symm, hA⟩

/-- Witness for C10: on the committed store holding "a"↦"1", both versions
of `wrap_batch_get` applied to keys [a-encoded, missing-encoded] return the
pair for the encoded "a". -/
theorem wrap_batch_get_equiv_witness :
    (encode_key .Raw [97], [49]) ∈
      wrap_batch_get (txnBegin sAB) (encode_keys .Raw [[97], [109]]) ∧
    (encode_key .Raw [97], [49]) ∈
      utils.wrap_batch_get (txnBegin sAB) (encode_keys .Raw [[97], [109]]) := by
  have h := wrap_batch_get_equiv (txnBegin sAB) (encode_keys .Raw [[97], [109]])
    (by decide) (by decide) (encode_key .Raw [97], [49])
  have hm : (encode_key .Raw [97], [49]) ∈
      wrap_batch_get (txnBegin sAB) (encode_keys .Raw [[97], [109]]) := by decide
  exact ⟨hm, h.1.1 hm⟩

end RedisTikvPoc
